/-
Verification of the `generate` package (runtime-tools spec generator):
a shallow embedding of src/vendor/github.com/opencontainers/runtime-tools/
generate/generate.go and proofs about its operations.

Go data structures from the `runtime-spec` package and the lazy-init
helpers (`initSpec*`) are not part of the given sources; they are modelled
from the specification document (marked `Modelled from the spec:`).
Everything else is translated directly from generate.go.
-/
import Mathlib

namespace Generate

/-- Modelled from the spec: a Hook — executable path and argument list (§3). -/
structure Hook where
  path : String
  args : List String
deriving DecidableEq, Repr

/-- Modelled from the spec: the Hooks group — ordered pre-start, post-start
and post-stop sequences (§3). -/
structure Hooks where
  prestart : List Hook
  poststart : List Hook
  poststop : List Hook
deriving DecidableEq, Repr

/-- Modelled from the spec: a Mount — destination, type token, source token,
ordered option list (§3). -/
structure Mount where
  destination : String
  type : String
  source : String
  options : List String
deriving DecidableEq, Repr

/-- Modelled from the spec: an rlimit entry — soft/hard pair keyed by limit
type (§3, §4.5); numeric values are the Go uint64 values. -/
structure LinuxRlimit where
  type : String
  hard : Nat
  soft : Nat
deriving DecidableEq, Repr

/-- Modelled from the spec: user identity — uid, gid, ordered additional
gids (§3). -/
structure User where
  uid : Nat
  gid : Nat
  additionalGids : List Nat
deriving DecidableEq, Repr

/-- Modelled from the spec: the ProcessSpec (§3). -/
structure Process where
  terminal : Bool
  user : User
  args : List String
  env : List String
  cwd : String
  capabilities : List String
  rlimits : List LinuxRlimit
  noNewPrivileges : Bool
  apparmorProfile : String
  selinuxLabel : String
deriving DecidableEq, Repr

/-- Modelled from the spec: a namespace entry — kind and optional join path
(§3); the kind is carried as its token string, as in the Go runtime-spec
where `LinuxNamespaceType` is a string type. -/
structure LinuxNamespace where
  type : String
  path : String
deriving DecidableEq, Repr

/-- Modelled from the spec: an ID mapping triple (§3). -/
structure IDMapping where
  hostID : Nat
  containerID : Nat
  size : Nat
deriving DecidableEq, Repr

/-- Modelled from the spec: CPU resource fields, each independently
nullable (§4.5). -/
structure LinuxCPU where
  shares : Option Nat
  quota : Option Int
  period : Option Nat
  realtimeRuntime : Option Int
  realtimePeriod : Option Nat
  cpus : String
  mems : String
deriving DecidableEq, Repr

/-- Modelled from the spec: memory resource fields, each independently
nullable (§4.5). -/
structure LinuxMemory where
  limit : Option Int
  reservation : Option Int
  swap : Option Int
  kernel : Option Int
  kernelTCP : Option Int
  swappiness : Option Nat
deriving DecidableEq, Repr

/-- Modelled from the spec: network resource fields — class id and
interface-priority upsert list (§4.5). -/
structure LinuxNetwork where
  classID : Option Nat
  priorities : List (String × Nat)
deriving DecidableEq, Repr

/-- Modelled from the spec: pids resource field (§4.5). -/
structure LinuxPids where
  limit : Int
deriving DecidableEq, Repr

/-- Modelled from the spec: a device-access rule (allow flag, access string)
as used in the default document. -/
structure LinuxDeviceCgroup where
  allow : Bool
  access : String
deriving DecidableEq, Repr

/-- Modelled from the spec: the resource-limit subtree — CPU, memory,
network, pids, device-access rules, each optional (§3, §4.5). -/
structure LinuxResources where
  devices : List LinuxDeviceCgroup
  disableOOMKiller : Option Bool
  oomScoreAdj : Option Int
  cpu : Option LinuxCPU
  memory : Option LinuxMemory
  network : Option LinuxNetwork
  pids : Option LinuxPids
deriving DecidableEq, Repr

/-- Modelled from the spec: the syscall-filter subtree — default action,
architecture set, per-syscall rules; treated atomically by the claims (§3,
§4.6). -/
structure LinuxSeccomp where
  defaultAction : String
  architectures : List String
  syscalls : List String
deriving DecidableEq, Repr

/-- Modelled from the spec: the optional LinuxSpec subtree (§3). The sysctl
mapping is an association list with an explicit absent state, mirroring a
nil Go map. -/
structure Linux where
  uidMappings : List IDMapping
  gidMappings : List IDMapping
  sysctl : Option (List (String × String))
  resources : Option LinuxResources
  cgroupsPath : String
  namespaces : List LinuxNamespace
  rootfsPropagation : String
  maskedPaths : List String
  readonlyPaths : List String
  mountLabel : String
  seccomp : Option LinuxSeccomp
deriving DecidableEq, Repr

/-- Modelled from the spec: platform descriptor (§3). -/
structure Platform where
  os : String
  arch : String
deriving DecidableEq, Repr

/-- Modelled from the spec: root filesystem descriptor (§3). -/
structure Root where
  path : String
  readonly : Bool
deriving DecidableEq, Repr

/-- Modelled from the spec: the SpecDocument root aggregate (§3). The
annotation mapping is an association list with an explicit absent state,
mirroring a nil Go map; the LinuxSpec subtree is optional. -/
structure Spec where
  version : String
  platform : Platform
  root : Root
  process : Process
  hostname : String
  mounts : List Mount
  hooks : Hooks
  annotations : Option (List (String × String))
  linux : Option Linux
deriving DecidableEq, Repr

/-- Generator (generate.go): wraps the document behind a nullable pointer,
plus the HostSpecific flag. -/
structure Generator where
  spec : Option Spec
  hostSpecific : Bool
deriving DecidableEq, Repr

/-- Zero value of the Go `rspec.Linux` struct: every field empty/absent. -/
def emptyLinux : Linux :=
  { uidMappings := [], gidMappings := [], sysctl := none, resources := none
    cgroupsPath := "", namespaces := [], rootfsPropagation := ""
    maskedPaths := [], readonlyPaths := [], mountLabel := "", seccomp := none }

/-- Zero value of the Go `rspec.Spec` struct. -/
def emptySpec : Spec :=
  { version := "", platform := ⟨"", ""⟩, root := ⟨"", false⟩
    process :=
      { terminal := false, user := ⟨0, 0, []⟩, args := [], env := []
        cwd := "", capabilities := [], rlimits := []
        noNewPrivileges := false, apparmorProfile := "", selinuxLabel := "" }
    hostname := "", mounts := [], hooks := ⟨[], [], []⟩
    annotations := none, linux := none }

/-- Modelled from the spec: lazy initialization (§4.1) — `initSpec`
allocates the document with zero values when the pointer is nil. -/
def initSpec (g : Generator) : Generator :=
  match g.spec with
  | none => { g with spec := some emptySpec }
  | some _ => g

/-- Modelled from the spec: lazy initialization (§4.1) — `initSpecLinux`
ensures the document and its LinuxSpec subtree exist. -/
def initSpecLinux (g : Generator) : Generator :=
  let g := initSpec g
  match g.spec with
  | none => g
  | some s =>
    match s.linux with
    | some _ => g
    | none => { g with spec := some { s with linux := some emptyLinux } }

/-- Apply a document transformation under the (already allocated) pointer. -/
def mapSpec (f : Spec → Spec) (g : Generator) : Generator :=
  { g with spec := g.spec.map f }

/-- The result of a fallible Generator method: the state after the call and
the returned Go error (`none` = nil error, i.e. success). -/
abbrev GenResult := Generator × Option String

/-- Go `strings.ToUpper`: map every character to its upper-case form (the
inputs of interest are ASCII, where Lean's `Char.toUpper` agrees with Go). -/
def toUpperGo (s : String) : String := String.mk (s.data.map Char.toUpper)

/-- Modelled from the spec: the CapabilityRegistry collaborator (§6) —
`caps` is the ordered `List()` of capability tokens, each paired with its
kernel index (the `Cap` value); tokens are the lower-case names without the
`CAP_` prefix, as produced by `Cap.String()`. `lastCap` is the host's last
supported index, as computed by `lastCap()` in generate.go. -/
structure CapRegistry where
  caps : List (String × Nat)
  lastCap : Nat

/-- Modelled from the spec: a concrete CapabilityRegistry instance — the
Linux capability tokens in registry order with their kernel indices, on a
host whose last supported index is 36 (so index 37, audit_read, is beyond
the host's range). -/
def sampleRegistry : CapRegistry :=
  { caps :=
      [("chown", 0), ("dac_override", 1), ("dac_read_search", 2), ("fowner", 3),
       ("fsetid", 4), ("kill", 5), ("setgid", 6), ("setuid", 7), ("setpcap", 8),
       ("linux_immutable", 9), ("net_bind_service", 10), ("net_broadcast", 11),
       ("net_admin", 12), ("net_raw", 13), ("ipc_lock", 14), ("ipc_owner", 15),
       ("sys_module", 16), ("sys_rawio", 17), ("sys_chroot", 18), ("sys_ptrace", 19),
       ("sys_pacct", 20), ("sys_admin", 21), ("sys_boot", 22), ("sys_nice", 23),
       ("sys_resource", 24), ("sys_time", 25), ("sys_tty_config", 26), ("mknod", 27),
       ("lease", 28), ("audit_write", 29), ("audit_control", 30), ("setfcap", 31),
       ("mac_override", 32), ("mac_admin", 33), ("syslog", 34), ("wake_alarm", 35),
       ("block_suspend", 36), ("audit_read", 37)]
    lastCap := 36 }

/-- checkCap (generate.go 784-802): upper-case the token and scan the
registry for a name whose upper-case form equals it; a host-unsupported
match is an error when hostSpecific is set; no match at all is an error. -/
def checkCap (R : CapRegistry) (c : String) (hostSpecific : Bool) : Option String :=
  let cp := toUpperGo c
  match R.caps.find? (fun p => cp == toUpperGo p.1) with
  | some p =>
    if hostSpecific && decide (p.2 > R.lastCap) then
      some ("CAP_" ++ cp ++ " is not supported on the current host")
    else none
  | none => some "Invalid value passed for adding capability"

/-- ClearProcessCapabilities (generate.go 804-810). -/
def clearProcessCapabilities (g : Generator) : Generator :=
  match g.spec with
  | none => g
  | some s => { g with spec := some { s with process := { s.process with capabilities := [] } } }

/-- AddProcessCapability (generate.go 812-829): validate via checkCap, form
`CAP_` ++ upper-case token, no-op when an entry already matches
case-insensitively, otherwise append. -/
def addProcessCapability (R : CapRegistry) (c : String) (g : Generator) : GenResult :=
  match checkCap R c g.hostSpecific with
  | some e => (g, some e)
  | none =>
    let cp := "CAP_" ++ toUpperGo c
    let g := initSpec g
    match g.spec with
    | none => (g, none)
    | some s =>
      if s.process.capabilities.any (fun cap => toUpperGo cap == cp) then (g, none)
      else ({ g with spec := some { s with process := { s.process with capabilities := s.process.capabilities ++ [cp] } } }, none)

/-- Remove the first entry whose upper-case form equals `cp` (the loop body
of DropProcessCapability). -/
def removeCap (cp : String) : List String → List String
  | [] => []
  | x :: xs => if toUpperGo x == cp then xs else x :: removeCap cp xs

/-- DropProcessCapability (generate.go 831-848): validate via checkCap,
then remove the first case-insensitive match; no match is a no-op. -/
def dropProcessCapability (R : CapRegistry) (c : String) (g : Generator) : GenResult :=
  match checkCap R c g.hostSpecific with
  | some e => (g, some e)
  | none =>
    let cp := "CAP_" ++ toUpperGo c
    let g := initSpec g
    match g.spec with
    | none => (g, none)
    | some s =>
      ({ g with spec := some { s with process := { s.process with capabilities := removeCap cp s.process.capabilities } } }, none)

/-- The capability list built by SetupPrivileged (generate.go 758-765):
every registry capability, skipped when hostSpecific and above lastCap,
rendered as `CAP_` ++ upper-case name. -/
def privCapList (R : CapRegistry) (hostSpecific : Bool) : List String :=
  (R.caps.filter (fun p => !(hostSpecific && decide (p.2 > R.lastCap)))).map
    (fun p => "CAP_" ++ toUpperGo p.1)

/-- SetupPrivileged (generate.go 755-772): when privileged, replace the
capability set with the full registry list, clear the SELinux label and
AppArmor profile, and nil the seccomp subtree; otherwise do nothing. -/
def setupPrivileged (R : CapRegistry) (privileged : Bool) (g : Generator) : Generator :=
  if privileged then
    let finalCapList := privCapList R g.hostSpecific
    let g := initSpecLinux g
    match g.spec with
    | none => g
    | some s =>
      let p := { s.process with capabilities := finalCapList, selinuxLabel := "", apparmorProfile := "" }
      { g with spec := some { s with process := p, linux := s.linux.map (fun l => { l with seccomp := none }) } }
  else g

/-- Namespaces (generate.go 17-20): the supported namespace kind tokens. -/
def Namespaces : List String := ["network", "pid", "mount", "ipc", "uts", "user", "cgroup"]

/-- mapStrToNamespace (generate.go 850-869): the switch over the seven
recognized kinds; each recognized token maps to the namespace whose type
constant is that same token string. -/
def mapStrToNamespace (ns : String) (path : String) : Except String LinuxNamespace :=
  if ns = "network" then .ok ⟨"network", path⟩
  else if ns = "pid" then .ok ⟨"pid", path⟩
  else if ns = "mount" then .ok ⟨"mount", path⟩
  else if ns = "ipc" then .ok ⟨"ipc", path⟩
  else if ns = "uts" then .ok ⟨"uts", path⟩
  else if ns = "user" then .ok ⟨"user", path⟩
  else if ns = "cgroup" then .ok ⟨"cgroup", path⟩
  else .error "Should not reach here!"

/-- ClearLinuxNamespaces (generate.go 871-877). -/
def clearLinuxNamespaces (g : Generator) : Generator :=
  match g.spec with
  | none => g
  | some s =>
    match s.linux with
    | none => g
    | some l => { g with spec := some { s with linux := some { l with namespaces := [] } } }

/-- The loop of AddOrReplaceLinuxNamespace: replace the first entry of the
same type in place, append when no entry matches. -/
def upsertNamespace (n : LinuxNamespace) : List LinuxNamespace → List LinuxNamespace
  | [] => [n]
  | x :: xs => if x.type == n.type then n :: xs else x :: upsertNamespace n xs

/-- AddOrReplaceLinuxNamespace (generate.go 879-896). -/
def addOrReplaceLinuxNamespace (ns : String) (path : String) (g : Generator) : GenResult :=
  match mapStrToNamespace ns path with
  | .error e => (g, some e)
  | .ok nsp =>
    let g := initSpecLinux g
    match g.spec with
    | none => (g, none)
    | some s =>
      match s.linux with
      | none => (g, none)
      | some l =>
        ({ g with spec := some { s with linux := some { l with namespaces := upsertNamespace nsp l.namespaces } } }, none)

/-- The loop of RemoveLinuxNamespace: delete the first entry of the given
type, leaving the list unchanged when none matches. -/
def removeNamespace (t : String) : List LinuxNamespace → List LinuxNamespace
  | [] => []
  | x :: xs => if x.type == t then xs else x :: removeNamespace t xs

/-- RemoveLinuxNamespace (generate.go 898-915): validate the kind first;
a nil document or nil LinuxSpec is a successful no-op. -/
def removeLinuxNamespace (ns : String) (g : Generator) : GenResult :=
  match mapStrToNamespace ns "" with
  | .error e => (g, some e)
  | .ok nsp =>
    match g.spec with
    | none => (g, none)
    | some s =>
      match s.linux with
      | none => (g, none)
      | some l =>
        ({ g with spec := some { s with linux := some { l with namespaces := removeNamespace nsp.type l.namespaces } } }, none)

/-- AddBindMount (generate.go 726-753): default empty options to ["rw"],
append "bind" when neither bind flag is present, then append the mount. -/
def addBindMount (source : String) (dest : String) (options : List String) (g : Generator) : Generator :=
  let options := if options.length = 0 then ["rw"] else options
  let foundBindOption := options.any (fun opt => opt == "bind" || opt == "rbind")
  let options := if !foundBindOption then options ++ ["bind"] else options
  let mnt : Mount := { destination := dest, type := "bind", source := source, options := options }
  let g := initSpec g
  mapSpec (fun s => { s with mounts := s.mounts ++ [mnt] }) g

/-- AddCgroupsMount (generate.go 703-724): "no" returns early with no
mount; "ro"/"rw" append the fixed cgroup mount; anything else errors. -/
def addCgroupsMount (mountCgroupOption : String) (g : Generator) : GenResult :=
  if mountCgroupOption = "no" then (g, none)
  else if mountCgroupOption = "ro" ∨ mountCgroupOption = "rw" then
    let mnt : Mount :=
      { destination := "/sys/fs/cgroup", type := "cgroup", source := "cgroup"
        options := ["nosuid", "noexec", "nodev", "relatime", mountCgroupOption] }
    let g := initSpec g
    (mapSpec (fun s => { s with mounts := s.mounts ++ [mnt] }) g, none)
  else (g, some "--mount-cgroups should be one of (ro,rw,no)")

/-- The loop of AddProcessRlimits: overwrite the hard/soft values of the
first entry of the given type in place, append when no entry matches. -/
def upsertRlimit (rType : String) (rHard : Nat) (rSoft : Nat) : List LinuxRlimit → List LinuxRlimit
  | [] => [⟨rType, rHard, rSoft⟩]
  | r :: rs =>
    if r.type == rType then { r with hard := rHard, soft := rSoft } :: rs
    else r :: upsertRlimit rType rHard rSoft rs

/-- AddProcessRlimits (generate.go 359-376). -/
def addProcessRlimits (rType : String) (rHard : Nat) (rSoft : Nat) (g : Generator) : Generator :=
  let g := initSpec g
  mapSpec (fun s => { s with process := { s.process with rlimits := upsertRlimit rType rHard rSoft s.process.rlimits } }) g

/-- The loop of RemoveProcessRlimits: delete the first entry of the given
type, leaving the list unchanged when none matches. -/
def removeRlimit (rType : String) : List LinuxRlimit → List LinuxRlimit
  | [] => []
  | r :: rs => if r.type == rType then rs else r :: removeRlimit rType rs

/-- RemoveProcessRlimits (generate.go 378-390): always returns a nil
error; a nil document is a no-op. -/
def removeProcessRlimits (rType : String) (g : Generator) : GenResult :=
  match g.spec with
  | none => (g, none)
  | some s =>
    ({ g with spec := some { s with process := { s.process with rlimits := removeRlimit rType s.process.rlimits } } }, none)

/-- ClearProcessRlimits (generate.go 392-398). -/
def clearProcessRlimits (g : Generator) : Generator :=
  match g.spec with
  | none => g
  | some s => { g with spec := some { s with process := { s.process with rlimits := [] } } }

/-- ClearProcessEnv (generate.go 336-342). -/
def clearProcessEnv (g : Generator) : Generator :=
  match g.spec with
  | none => g
  | some s => { g with spec := some { s with process := { s.process with env := [] } } }

/-- ClearProcessAdditionalGids (generate.go 400-406). -/
def clearProcessAdditionalGids (g : Generator) : Generator :=
  match g.spec with
  | none => g
  | some s => { g with spec := some { s with process := { s.process with user := { s.process.user with additionalGids := [] } } } }

/-- ClearAnnotations (generate.go 260-266): allocate a fresh empty map. -/
def clearAnnotations (g : Generator) : Generator :=
  match g.spec with
  | none => g
  | some s => { g with spec := some { s with annotations := some [] } }

/-- RemoveAnnotation (generate.go 274-280): a nil document or nil map is a
no-op; otherwise delete the key. -/
def removeAnnotation (key : String) (g : Generator) : Generator :=
  match g.spec with
  | none => g
  | some s =>
    match s.annotations with
    | none => g
    | some m => { g with spec := some { s with annotations := some (m.filter (fun kv => kv.1 ≠ key)) } }

/-- ClearLinuxSysctl (generate.go 565-571). -/
def clearLinuxSysctl (g : Generator) : Generator :=
  match g.spec with
  | none => g
  | some s =>
    match s.linux with
    | none => g
    | some l => { g with spec := some { s with linux := some { l with sysctl := some [] } } }

/-- RemoveLinuxSysctl (generate.go 579-585). -/
def removeLinuxSysctl (key : String) (g : Generator) : Generator :=
  match g.spec with
  | none => g
  | some s =>
    match s.linux with
    | none => g
    | some l =>
      match l.sysctl with
      | none => g
      | some m => { g with spec := some { s with linux := some { l with sysctl := some (m.filter (fun kv => kv.1 ≠ key)) } } }

/-- ClearLinuxUIDMappings (generate.go 587-593). -/
def clearLinuxUIDMappings (g : Generator) : Generator :=
  match g.spec with
  | none => g
  | some s =>
    match s.linux with
    | none => g
    | some l => { g with spec := some { s with linux := some { l with uidMappings := [] } } }

/-- ClearLinuxGIDMappings (generate.go 607-613). -/
def clearLinuxGIDMappings (g : Generator) : Generator :=
  match g.spec with
  | none => g
  | some s =>
    match s.linux with
    | none => g
    | some l => { g with spec := some { s with linux := some { l with gidMappings := [] } } }

/-- ClearPreStartHooks (generate.go 645-651). -/
def clearPreStartHooks (g : Generator) : Generator :=
  match g.spec with
  | none => g
  | some s => { g with spec := some { s with hooks := { s.hooks with prestart := [] } } }

/-- ClearPostStartHooks (generate.go 675-681). -/
def clearPostStartHooks (g : Generator) : Generator :=
  match g.spec with
  | none => g
  | some s => { g with spec := some { s with hooks := { s.hooks with poststart := [] } } }

/-- ClearPostStopHooks (generate.go 660-666). -/
def clearPostStopHooks (g : Generator) : Generator :=
  match g.spec with
  | none => g
  | some s => { g with spec := some { s with hooks := { s.hooks with poststop := [] } } }

/-- Whether the Go JSON encoding of a Linux value is "{}": every field at a
value the encoder omits — empty lists, empty strings, nil (or empty-map)
sysctl, nil resources and seccomp pointers. This is the prune test of
Save (generate.go 199-207). -/
def linuxMarshalsEmpty (l : Linux) : Bool :=
  l.uidMappings.isEmpty && l.gidMappings.isEmpty
    && (l.sysctl == none || l.sysctl == some [])
    && l.resources == none && l.cgroupsPath == "" && l.namespaces.isEmpty
    && l.rootfsPropagation == "" && l.maskedPaths.isEmpty
    && l.readonlyPaths.isEmpty && l.mountLabel == "" && l.seccomp == none

/-- The observable outcome of Save: a successful write, or a nil-pointer
dereference (a Go runtime panic, not a returned error). -/
inductive SaveOutcome where
  | ok : SaveOutcome
  | nilDeref : SaveOutcome
deriving DecidableEq, Repr

/-- Save (generate.go 195-224), with the writer abstracted away: prune the
Linux subtree to nil when it marshals to "{}", then, in seccomp-only
export, dereference `g.spec.Linux` unconditionally. -/
def save (g : Generator) (seccompOnly : Bool) : SaveOutcome :=
  match g.spec with
  | none => .nilDeref
  | some s =>
    let s := match s.linux with
      | some l => if linuxMarshalsEmpty l then { s with linux := none } else s
      | none => s
    if seccompOnly then
      match s.linux with
      | none => .nilDeref
      | some _ => .ok
    else .ok

/-! ### Helper lemmas -/

theorem initSpec_of_some {g : Generator} {s : Spec} (hg : g.spec = some s) :
    initSpec g = g := by
  unfold initSpec
  rw [hg]

theorem initSpecLinux_of_some {g : Generator} {s : Spec} {l : Linux}
    (hg : g.spec = some s) (hl : s.linux = some l) : initSpecLinux g = g := by
  unfold initSpecLinux
  simp only [initSpec_of_some hg, hg, hl]

theorem mapStrToNamespace_of_mem {k : String} (p : String) (hk : k ∈ Namespaces) :
    mapStrToNamespace k p = .ok ⟨k, p⟩ := by
  simp only [Namespaces, List.mem_cons, List.mem_singleton] at hk
  rcases hk with h | h | h | h | h | h | h | h <;> first
    | (subst h; rfl)
    | exact absurd h (by simp)

theorem mapStrToNamespace_of_not_mem {k : String} (p : String) (hk : k ∉ Namespaces) :
    mapStrToNamespace k p = .error "Should not reach here!" := by
  simp only [Namespaces, List.mem_cons, List.mem_singleton, not_or] at hk
  obtain ⟨h1, h2, h3, h4, h5, h6, h7, _⟩ := hk
  simp [mapStrToNamespace, h1, h2, h3, h4, h5, h6, h7]

theorem removeNamespace_id (t : String) :
    ∀ L : List LinuxNamespace, (∀ x ∈ L, x.type ≠ t) → removeNamespace t L = L
  | [], _ => rfl
  | x :: xs, h => by
    have hx : (x.type == t) = false :=
      beq_eq_false_iff_ne.mpr (h x (List.mem_cons_self x xs))
    simp only [removeNamespace, hx, Bool.false_eq_true, if_false,
      removeNamespace_id t xs (fun y hy => h y (List.mem_cons_of_mem x hy))]

theorem upsertNamespace_eq_append (n : LinuxNamespace) :
    ∀ L : List LinuxNamespace, (∀ x ∈ L, x.type ≠ n.type) →
      upsertNamespace n L = L ++ [n]
  | [], _ => rfl
  | x :: xs, h => by
    have hx : (x.type == n.type) = false :=
      beq_eq_false_iff_ne.mpr (h x (List.mem_cons_self x xs))
    simp only [upsertNamespace, hx, Bool.false_eq_true, if_false, List.cons_append,
      upsertNamespace_eq_append n xs (fun y hy => h y (List.mem_cons_of_mem x hy))]

theorem upsertNamespace_eq_map (n : LinuxNamespace) :
    ∀ L : List LinuxNamespace,
      L.any (fun x => x.type == n.type) = true →
      L.countP (fun x => x.type == n.type) ≤ 1 →
      upsertNamespace n L = L.map (fun x => if x.type == n.type then n else x)
  | [], hp, _ => by simp at hp
  | x :: xs, hp, hc => by
    by_cases hx : (x.type == n.type) = true
    · have hzero : xs.countP (fun y => y.type == n.type) = 0 := by
        rw [List.countP_cons, hx, if_pos rfl] at hc
        omega
      have hid : ∀ y ∈ xs, (fun y : LinuxNamespace => if y.type == n.type then n else y) y = y := by
        intro y hy
        have := List.countP_eq_zero.mp hzero y hy
        simp only [this, Bool.false_eq_true, if_false]
      simp only [upsertNamespace, hx, if_true, List.map_cons,
        List.map_congr_left hid, List.map_id']
    · have hx' : (x.type == n.type) = false := by
        simpa using hx
      have hp' : xs.any (fun y => y.type == n.type) = true := by
        simp only [List.any_cons, hx', Bool.false_or] at hp
        exact hp
      have hc' : xs.countP (fun y => y.type == n.type) ≤ 1 := by
        rw [List.countP_cons, hx'] at hc
        omega
      simp only [upsertNamespace, hx', Bool.false_eq_true, if_false, List.map_cons,
        upsertNamespace_eq_map n xs hp' hc']

theorem countP_upsertNamespace_self (n : LinuxNamespace) :
    ∀ L : List LinuxNamespace,
      (upsertNamespace n L).countP (fun x => x.type == n.type) =
        max (L.countP (fun x => x.type == n.type)) 1
  | [] => by simp [upsertNamespace]
  | x :: xs => by
    by_cases hx : (x.type == n.type) = true
    · simp only [upsertNamespace, hx, if_true, List.countP_cons, beq_self_eq_true,
        if_true]
      omega
    · have hx' : (x.type == n.type) = false := by simpa using hx
      simp only [upsertNamespace, hx', Bool.false_eq_true, if_false, List.countP_cons,
        countP_upsertNamespace_self n xs]
      omega

theorem countP_upsertNamespace_ne (n : LinuxNamespace) (t : String) (ht : t ≠ n.type) :
    ∀ L : List LinuxNamespace,
      (upsertNamespace n L).countP (fun x => x.type == t) =
        L.countP (fun x => x.type == t)
  | [] => by
    have : (n.type == t) = false := beq_eq_false_iff_ne.mpr (Ne.symm ht)
    simp [upsertNamespace, this]
  | x :: xs => by
    by_cases hx : (x.type == n.type) = true
    · have hxt : x.type = n.type := eq_of_beq hx
      have h1 : (n.type == t) = false := beq_eq_false_iff_ne.mpr (Ne.symm ht)
      have h2 : (x.type == t) = false := by
        rw [hxt]; exact h1
      simp [upsertNamespace, hx, List.countP_cons, h1, h2]
    · have hx' : (x.type == n.type) = false := by simpa using hx
      simp only [upsertNamespace, hx', Bool.false_eq_true, if_false, List.countP_cons,
        countP_upsertNamespace_ne n t ht xs]

theorem upsertNamespace_unique (n : LinuxNamespace) :
    ∀ L : List LinuxNamespace,
      L.countP (fun x => x.type == n.type) ≤ 1 →
      ∀ x ∈ upsertNamespace n L, x.type = n.type → x = n
  | [], _, x, hx, _ => by
    simp only [upsertNamespace, List.mem_singleton] at hx
    exact hx
  | y :: ys, hc, x, hx, hxt => by
    by_cases hy : (y.type == n.type) = true
    · simp only [upsertNamespace, hy, if_true, List.mem_cons] at hx
      rcases hx with h | h
      · exact h
      · exfalso
        have hzero : ys.countP (fun z => z.type == n.type) = 0 := by
          rw [List.countP_cons, hy, if_pos rfl] at hc
          omega
        exact absurd (beq_iff_eq.mpr hxt) (List.countP_eq_zero.mp hzero x h)
    · have hy' : (y.type == n.type) = false := by simpa using hy
      simp only [upsertNamespace, hy', Bool.false_eq_true, if_false, List.mem_cons] at hx
      rcases hx with h | h
      · subst h
        exact absurd (beq_iff_eq.mpr hxt) (by simp [hy'])
      · have hc' : ys.countP (fun z => z.type == n.type) ≤ 1 := by
          rw [List.countP_cons, hy'] at hc
          omega
        exact upsertNamespace_unique n ys hc' x h hxt

theorem addOrReplaceLinuxNamespace_ok {k : String} (p : String) {g : Generator}
    {s : Spec} {l : Linux} (hk : k ∈ Namespaces) (hg : g.spec = some s)
    (hl : s.linux = some l) :
    addOrReplaceLinuxNamespace k p g =
      ({ g with spec := some { s with linux := some { l with
          namespaces := upsertNamespace ⟨k, p⟩ l.namespaces } } }, none) := by
  unfold addOrReplaceLinuxNamespace
  rw [mapStrToNamespace_of_mem p hk, initSpecLinux_of_some hg hl]
  simp only [hg, hl]

theorem initSpecLinux_spec (g : Generator) :
    ∃ s l, (initSpecLinux g).spec = some s ∧ s.linux = some l := by
  obtain ⟨gs, ghs⟩ := g
  cases gs with
  | none => exact ⟨_, _, rfl, rfl⟩
  | some s =>
    obtain ⟨v, pf, rt, pr, hn, mt, hko, an, lx⟩ := s
    cases lx with
    | none => exact ⟨_, _, rfl, rfl⟩
    | some l => exact ⟨_, _, rfl, rfl⟩

/-! ### Claim C3 -/

/-- C3: for every kind string k, AddOrReplaceLinuxNamespace(k, path) and
RemoveLinuxNamespace(k) return a ValidationError and leave the document
unchanged exactly when k is not one of the seven recognized kinds; for a
recognized kind, RemoveLinuxNamespace returns success and leaves the
document unchanged when no entry of that kind exists or when the LinuxSpec
subtree is absent. -/
theorem namespace_kind_validation (k p : String) (g : Generator) :
    (k ∉ Namespaces →
      addOrReplaceLinuxNamespace k p g = (g, some "Should not reach here!") ∧
      removeLinuxNamespace k g = (g, some "Should not reach here!")) ∧
    (k ∈ Namespaces →
      (addOrReplaceLinuxNamespace k p g).2 = none ∧
      (removeLinuxNamespace k g).2 = none ∧
      (g.spec = none → removeLinuxNamespace k g = (g, none)) ∧
      (∀ s, g.spec = some s → s.linux = none → removeLinuxNamespace k g = (g, none)) ∧
      (∀ s l, g.spec = some s → s.linux = some l →
        (∀ n ∈ l.namespaces, n.type ≠ k) → removeLinuxNamespace k g = (g, none))) := by
  constructor
  · intro hk
    constructor
    · unfold addOrReplaceLinuxNamespace
      rw [mapStrToNamespace_of_not_mem p hk]
    · unfold removeLinuxNamespace
      rw [mapStrToNamespace_of_not_mem "" hk]
  · intro hk
    refine ⟨?_, ?_, ?_, ?_, ?_⟩
    · obtain ⟨s1, l1, hs1, hl1⟩ := initSpecLinux_spec g
      simp only [addOrReplaceLinuxNamespace, mapStrToNamespace_of_mem p hk, hs1, hl1]
    · obtain ⟨gs, ghs⟩ := g
      cases gs with
      | none => simp [removeLinuxNamespace, mapStrToNamespace_of_mem "" hk]
      | some s =>
        obtain ⟨v, pf, rt, pr, hn, mt, hko, an, lx⟩ := s
        cases lx with
        | none => simp [removeLinuxNamespace, mapStrToNamespace_of_mem "" hk]
        | some l => simp [removeLinuxNamespace, mapStrToNamespace_of_mem "" hk]
    · intro hgn
      obtain ⟨gs, ghs⟩ := g
      have : gs = none := hgn
      subst this
      simp [removeLinuxNamespace, mapStrToNamespace_of_mem "" hk]
    · intro s hgs hls
      obtain ⟨gs, ghs⟩ := g
      have : gs = some s := hgs
      subst this
      obtain ⟨v, pf, rt, pr, hn, mt, hko, an, lx⟩ := s
      have : lx = none := hls
      subst this
      simp [removeLinuxNamespace, mapStrToNamespace_of_mem "" hk]
    · intro s l hgs hls hnone
      obtain ⟨gs, ghs⟩ := g
      have : gs = some s := hgs
      subst this
      obtain ⟨v, pf, rt, pr, hn, mt, hko, an, lx⟩ := s
      have : lx = some l := hls
      subst this
      obtain ⟨um, gm, sy, re, cg, ns, rp, mp, rop, ml, sc⟩ := l
      have h1 : removeNamespace k ns = ns := removeNamespace_id k ns hnone
      simp only [removeLinuxNamespace, mapStrToNamespace_of_mem "" hk, h1]

/-! ### Claim C4 -/

/-- C4: for a recognized kind k, AddOrReplaceLinuxNamespace overwrites an
existing entry of kind k in place (position unchanged) and appends
otherwise; from a state with at most one entry per kind, upserting path p1
then p2 yields exactly one entry of kind k, carrying p2. -/
theorem addOrReplaceLinuxNamespace_upsert (k p1 p2 : String) (g : Generator) (s : Spec)
    (l : Linux) (hk : k ∈ Namespaces) (hg : g.spec = some s) (hl : s.linux = some l)
    (hdedup : ∀ t, l.namespaces.countP (fun n => n.type == t) ≤ 1) :
    addOrReplaceLinuxNamespace k p1 g =
      ({ g with spec := some { s with linux := some { l with namespaces :=
          (if (l.namespaces.any (fun n => n.type == k))
           then l.namespaces.map (fun n => if n.type == k then ⟨k, p1⟩ else n)
           else l.namespaces ++ [⟨k, p1⟩]) } } }, none) ∧
    ∃ s2 l2,
      ((addOrReplaceLinuxNamespace k p2 (addOrReplaceLinuxNamespace k p1 g).1).1).spec = some s2 ∧
      s2.linux = some l2 ∧
      l2.namespaces.countP (fun n => n.type == k) = 1 ∧
      (∀ n ∈ l2.namespaces, n.type = k → n.path = p2) := by
  have h1 := addOrReplaceLinuxNamespace_ok p1 hk hg hl
  have hup : upsertNamespace ⟨k, p1⟩ l.namespaces =
      (if (l.namespaces.any (fun n => n.type == k))
       then l.namespaces.map (fun n => if n.type == k then ⟨k, p1⟩ else n)
       else l.namespaces ++ [⟨k, p1⟩]) := by
    by_cases hpres : l.namespaces.any (fun n => n.type == k) = true
    · rw [if_pos hpres]
      exact upsertNamespace_eq_map ⟨k, p1⟩ l.namespaces hpres (hdedup k)
    · rw [if_neg hpres]
      refine upsertNamespace_eq_append ⟨k, p1⟩ l.namespaces ?_
      intro x hx
      simp only [List.any_eq_true, not_exists, not_and] at hpres
      exact fun hxe => absurd (beq_iff_eq.mpr hxe) (by simpa using hpres x hx)
  constructor
  · rw [h1, hup]
  · have ha : (upsertNamespace ⟨k, p1⟩ l.namespaces).countP (fun n => n.type == k) =
        max (l.namespaces.countP (fun n => n.type == k)) 1 :=
      countP_upsertNamespace_self ⟨k, p1⟩ l.namespaces
    have hle : l.namespaces.countP (fun n => n.type == k) ≤ 1 := hdedup k
    have hcount1 : (upsertNamespace ⟨k, p1⟩ l.namespaces).countP (fun n => n.type == k) = 1 := by
      omega
    have hg1 : ((addOrReplaceLinuxNamespace k p1 g).1).spec =
        some { s with linux := some { l with namespaces := upsertNamespace ⟨k, p1⟩ l.namespaces } } := by
      rw [h1]
    have h2 := addOrReplaceLinuxNamespace_ok p2 hk hg1 rfl
    have hb : (upsertNamespace ⟨k, p2⟩ (upsertNamespace ⟨k, p1⟩ l.namespaces)).countP
          (fun n => n.type == k) =
        max ((upsertNamespace ⟨k, p1⟩ l.namespaces).countP (fun n => n.type == k)) 1 :=
      countP_upsertNamespace_self ⟨k, p2⟩ (upsertNamespace ⟨k, p1⟩ l.namespaces)
    have hcount2 : (upsertNamespace ⟨k, p2⟩ (upsertNamespace ⟨k, p1⟩ l.namespaces)).countP
        (fun n => n.type == k) = 1 := by
      omega
    have huq : ∀ x ∈ upsertNamespace ⟨k, p2⟩ (upsertNamespace ⟨k, p1⟩ l.namespaces),
        x.type = k → x = ⟨k, p2⟩ :=
      upsertNamespace_unique ⟨k, p2⟩ (upsertNamespace ⟨k, p1⟩ l.namespaces) (le_of_eq hcount1)
    refine ⟨{ s with linux := some { l with namespaces := upsertNamespace ⟨k, p2⟩ (upsertNamespace ⟨k, p1⟩ l.namespaces) } }, { l with namespaces := upsertNamespace ⟨k, p2⟩ (upsertNamespace ⟨k, p1⟩ l.namespaces) }, by rw [h2], rfl, hcount2, fun n hn hnt => by rw [huq n hn hnt]⟩

/-! ### Claim C1 -/

/-- C1 counterexample: adding "chown" succeeds (normalized to CAP_CHOWN),
but then adding "CAP_CHOWN" is rejected with a validation error instead of
succeeding, because validation compares the upper-cased input — prefix
included — against the unprefixed registry names. -/
theorem addProcessCapability_cap_prefix_rejected :
    (addProcessCapability sampleRegistry "chown"
        { spec := some emptySpec, hostSpecific := false }).2 = none ∧
    (addProcessCapability sampleRegistry "CAP_CHOWN"
        (addProcessCapability sampleRegistry "chown"
          { spec := some emptySpec, hostSpecific := false }).1) =
      ((addProcessCapability sampleRegistry "chown"
          { spec := some emptySpec, hostSpecific := false }).1,
       some "Invalid value passed for adding capability") := by
  constructor <;> decide

/-- C1 (amended): AddProcessCapability(c) upper-cases c and unconditionally
prefixes "CAP_"; when validation succeeds, the normalized token is appended
unless an entry already matches case-insensitively, in which case the call
succeeds without modifying the list (preserving first-seen order); a token
whose upper-case form matches no registry name — in particular a token
already carrying the "CAP_" prefix, registry names being unprefixed — is
rejected with a ValidationError and the document is unchanged. -/
theorem addProcessCapability_normalizes (R : CapRegistry) (c : String) (g : Generator)
    (s : Spec) (hg : g.spec = some s) :
    (checkCap R c g.hostSpecific = none →
      addProcessCapability R c g =
        (if (s.process.capabilities.any (fun cap => toUpperGo cap == "CAP_" ++ toUpperGo c))
         then (g, none)
         else ({ g with spec := some { s with process := { s.process with
                 capabilities := s.process.capabilities ++ ["CAP_" ++ toUpperGo c] } } }, none))) ∧
    ((∀ q ∈ R.caps, toUpperGo q.1 ≠ toUpperGo c) →
      addProcessCapability R c g = (g, some "Invalid value passed for adding capability")) := by
  constructor
  · intro hok
    simp only [addProcessCapability, hok, initSpec_of_some hg, hg]
  · intro hnone
    have hfind : R.caps.find? (fun p => toUpperGo c == toUpperGo p.1) = none :=
      List.find?_eq_none.mpr (fun q hq => by simpa using (hnone q hq).symm)
    have hcc : checkCap R c g.hostSpecific = some "Invalid value passed for adding capability" := by
      simp only [checkCap, hfind]
    simp only [addProcessCapability, hcc]

/-! ### Claim C2 -/

theorem privCapList_eq (R : CapRegistry) (hostSpecific : Bool) :
    privCapList R hostSpecific =
      (if hostSpecific then R.caps.filter (fun q => q.2 ≤ R.lastCap) else R.caps).map
        (fun q => "CAP_" ++ toUpperGo q.1) := by
  cases hostSpecific with
  | false => simp [privCapList]
  | true =>
    unfold privCapList
    rw [if_pos rfl]
    congr 1
    apply List.filter_congr
    intro q _
    by_cases h : q.2 ≤ R.lastCap
    · simp [h, Nat.not_lt.mpr h]
    · simp [h, Nat.lt_of_not_le h]

/-- C2: SetupPrivileged(true) replaces the capability set with every
registry capability rendered as "CAP_" plus the upper-cased name (filtered
to the host's supported range when HostSpecific is set), clears the SELinux
label and the AppArmor profile, and removes the seccomp subtree — and
nothing else changes; SetupPrivileged(false) changes nothing at all. -/
theorem setupPrivileged_spec (R : CapRegistry) (g : Generator) (s : Spec) (l : Linux)
    (hg : g.spec = some s) (hl : s.linux = some l) :
    setupPrivileged R true g =
      { g with spec := some { s with
          process := { s.process with
            capabilities := ((if g.hostSpecific then R.caps.filter (fun q => q.2 ≤ R.lastCap) else R.caps).map (fun q => "CAP_" ++ toUpperGo q.1)),
            selinuxLabel := "", apparmorProfile := "" },
          linux := some { l with seccomp := none } } } ∧
    setupPrivileged R false g = g := by
  constructor
  · simp [setupPrivileged, initSpecLinux_of_some hg hl, hg, hl, privCapList_eq]
  · rfl

/-! ### Claim C5 -/

/-- C5: AddBindMount appends exactly one "bind"-type mount at the end of
the mount sequence, leaving every other field and all existing mounts (and
their order) unchanged; its option list is opts with "bind" appended when
opts contains neither "bind" nor "rbind", opts verbatim otherwise, and
["rw", "bind"] when opts is empty. -/
theorem addBindMount_appends (source dest : String) (opts : List String) (g : Generator)
    (s : Spec) (hg : g.spec = some s) :
    addBindMount source dest opts g =
      { g with spec := some { s with mounts := s.mounts ++
          [{ destination := dest, type := "bind", source := source,
             options := (if opts = [] then ["rw", "bind"]
                         else if (opts.any (fun o => o == "bind" || o == "rbind"))
                         then opts else opts ++ ["bind"]) }] } } := by
  by_cases h0 : opts = []
  · subst h0
    simp [addBindMount, mapSpec, initSpec_of_some hg, hg]
  · simp only [addBindMount, mapSpec, initSpec_of_some hg, hg, if_neg h0,
      List.length_eq_zero, Option.map_some']
    by_cases hb : (opts.any (fun o => o == "bind" || o == "rbind")) = true
    · simp [hb]
    · simp [hb, eq_false hb]

/-! ### Claim C6 -/

/-- C6: AddCgroupsMount("no") succeeds appending nothing; AddCgroupsMount
with "ro" or "rw" succeeds and appends exactly one cgroup mount at
/sys/fs/cgroup with option list ["nosuid","noexec","nodev","relatime",
mode]; any other mode returns a ValidationError and the document is
unchanged. -/
theorem addCgroupsMount_modes (mode : String) (g : Generator) (s : Spec)
    (hg : g.spec = some s) :
    (mode = "no" → addCgroupsMount mode g = (g, none)) ∧
    (mode = "ro" ∨ mode = "rw" →
      addCgroupsMount mode g =
        ({ g with spec := some { s with mounts := s.mounts ++
            [{ destination := "/sys/fs/cgroup", type := "cgroup", source := "cgroup",
               options := ["nosuid", "noexec", "nodev", "relatime", mode] }] } }, none)) ∧
    (mode ≠ "no" → mode ≠ "ro" → mode ≠ "rw" →
      addCgroupsMount mode g = (g, some "--mount-cgroups should be one of (ro,rw,no)")) := by
  refine ⟨?_, ?_, ?_⟩
  · intro h
    subst h
    rfl
  · intro h
    rcases h with h | h <;> subst h <;>
      simp [addCgroupsMount, mapSpec, initSpec_of_some hg, hg]
  · intro h1 h2 h3
    simp [addCgroupsMount, h1, h2, h3]

/-! ### Claim C7 -/

theorem removeRlimit_id (t : String) :
    ∀ L : List LinuxRlimit, (∀ r ∈ L, r.type ≠ t) → removeRlimit t L = L
  | [], _ => rfl
  | r :: rs, h => by
    have hr : (r.type == t) = false :=
      beq_eq_false_iff_ne.mpr (h r (List.mem_cons_self r rs))
    simp only [removeRlimit, hr, Bool.false_eq_true, if_false,
      removeRlimit_id t rs (fun y hy => h y (List.mem_cons_of_mem r hy))]

theorem removeRlimit_first (t : String) (e : LinuxRlimit) (post : List LinuxRlimit)
    (he : e.type = t) :
    ∀ pre : List LinuxRlimit, (∀ r ∈ pre, r.type ≠ t) →
      removeRlimit t (pre ++ e :: post) = pre ++ post
  | [], _ => by
    simp only [List.nil_append, removeRlimit, beq_iff_eq.mpr he, if_true]
  | r :: rs, h => by
    have hr : (r.type == t) = false :=
      beq_eq_false_iff_ne.mpr (h r (List.mem_cons_self r rs))
    simp only [List.cons_append, removeRlimit, hr, Bool.false_eq_true, if_false,
      List.append_eq,
      removeRlimit_first t e post he rs (fun y hy => h y (List.mem_cons_of_mem r hy))]

theorem upsertRlimit_eq_append (t : String) (rHard rSoft : Nat) :
    ∀ L : List LinuxRlimit, (∀ r ∈ L, r.type ≠ t) →
      upsertRlimit t rHard rSoft L = L ++ [⟨t, rHard, rSoft⟩]
  | [], _ => rfl
  | r :: rs, h => by
    have hr : (r.type == t) = false :=
      beq_eq_false_iff_ne.mpr (h r (List.mem_cons_self r rs))
    simp only [upsertRlimit, hr, Bool.false_eq_true, if_false, List.cons_append,
      upsertRlimit_eq_append t rHard rSoft rs (fun y hy => h y (List.mem_cons_of_mem r hy))]

theorem upsertRlimit_eq_map (t : String) (rHard rSoft : Nat) :
    ∀ L : List LinuxRlimit,
      L.any (fun r => r.type == t) = true →
      L.countP (fun r => r.type == t) ≤ 1 →
      upsertRlimit t rHard rSoft L =
        L.map (fun r => if r.type == t then ⟨t, rHard, rSoft⟩ else r)
  | [], hp, _ => by simp at hp
  | r :: rs, hp, hc => by
    by_cases hr : (r.type == t) = true
    · have hzero : rs.countP (fun y => y.type == t) = 0 := by
        rw [List.countP_cons, hr, if_pos rfl] at hc
        omega
      have hid : ∀ y ∈ rs, (fun y : LinuxRlimit => if y.type == t then ⟨t, rHard, rSoft⟩ else y) y = y := by
        intro y hy
        have := List.countP_eq_zero.mp hzero y hy
        simp only [this, Bool.false_eq_true, if_false]
      have hrt : r.type = t := eq_of_beq hr
      simp only [upsertRlimit, hr, if_true, List.map_cons,
        List.map_congr_left hid, List.map_id', hrt, beq_self_eq_true]
    · have hr' : (r.type == t) = false := by simpa using hr
      have hp' : rs.any (fun y => y.type == t) = true := by
        simp only [List.any_cons, hr', Bool.false_or] at hp
        exact hp
      have hc' : rs.countP (fun y => y.type == t) ≤ 1 := by
        rw [List.countP_cons, hr'] at hc
        omega
      simp only [upsertRlimit, hr', Bool.false_eq_true, if_false, List.map_cons,
        upsertRlimit_eq_map t rHard rSoft rs hp' hc']

theorem countP_upsertRlimit_self (t : String) (rHard rSoft : Nat) :
    ∀ L : List LinuxRlimit,
      (upsertRlimit t rHard rSoft L).countP (fun r => r.type == t) =
        max (L.countP (fun r => r.type == t)) 1
  | [] => by simp [upsertRlimit]
  | r :: rs => by
    by_cases hr : (r.type == t) = true
    · simp only [upsertRlimit, hr, if_true, List.countP_cons, beq_self_eq_true, if_true]
      omega
    · have hr' : (r.type == t) = false := by simpa using hr
      simp only [upsertRlimit, hr', Bool.false_eq_true, if_false, List.countP_cons,
        countP_upsertRlimit_self t rHard rSoft rs]
      omega

theorem countP_upsertRlimit_ne (t ty : String) (rHard rSoft : Nat) (ht : ty ≠ t) :
    ∀ L : List LinuxRlimit,
      (upsertRlimit t rHard rSoft L).countP (fun r => r.type == ty) =
        L.countP (fun r => r.type == ty)
  | [] => by
    have : (t == ty) = false := beq_eq_false_iff_ne.mpr (Ne.symm ht)
    simp [upsertRlimit, this]
  | r :: rs => by
    by_cases hr : (r.type == t) = true
    · have hrt : r.type = t := eq_of_beq hr
      have h1 : (t == ty) = false := beq_eq_false_iff_ne.mpr (Ne.symm ht)
      have h2 : (r.type == ty) = false := by
        rw [hrt]; exact h1
      simp [upsertRlimit, hr, List.countP_cons, h1, h2]
    · have hr' : (r.type == t) = false := by simpa using hr
      simp only [upsertRlimit, hr', Bool.false_eq_true, if_false, List.countP_cons,
        countP_upsertRlimit_ne t ty rHard rSoft ht rs]

/-- C7: AddProcessRlimits overwrites the hard and soft values of an
existing entry of the given type in place (position unchanged, no new
entry) and appends a new entry otherwise, preserving the at-most-one-per-
type invariant; RemoveProcessRlimits deletes the first entry of the type
and returns success, and is a successful no-op when no entry matches. -/
theorem processRlimits_upsert_remove (t : String) (rHard rSoft : Nat) (g : Generator)
    (s : Spec) (hg : g.spec = some s)
    (hdedup : ∀ ty, s.process.rlimits.countP (fun r => r.type == ty) ≤ 1) :
    (addProcessRlimits t rHard rSoft g =
      { g with spec := some { s with process := { s.process with rlimits :=
          (if (s.process.rlimits.any (fun r => r.type == t))
           then s.process.rlimits.map (fun r => if r.type == t then ⟨t, rHard, rSoft⟩ else r)
           else s.process.rlimits ++ [⟨t, rHard, rSoft⟩]) } } }) ∧
    (∀ ty s2, (addProcessRlimits t rHard rSoft g).spec = some s2 →
      s2.process.rlimits.countP (fun r => r.type == ty) ≤ 1) ∧
    ((∀ r ∈ s.process.rlimits, r.type ≠ t) → removeProcessRlimits t g = (g, none)) ∧
    (∀ pre e post, s.process.rlimits = pre ++ e :: post → e.type = t →
      (∀ r ∈ pre, r.type ≠ t) →
      removeProcessRlimits t g =
        ({ g with spec := some { s with process := { s.process with
            rlimits := pre ++ post } } }, none)) := by
  have hadd : addProcessRlimits t rHard rSoft g =
      { g with spec := some { s with process := { s.process with
          rlimits := upsertRlimit t rHard rSoft s.process.rlimits } } } := by
    simp only [addProcessRlimits, mapSpec, initSpec_of_some hg, hg, Option.map_some']
  have hup : upsertRlimit t rHard rSoft s.process.rlimits =
      (if (s.process.rlimits.any (fun r => r.type == t))
       then s.process.rlimits.map (fun r => if r.type == t then ⟨t, rHard, rSoft⟩ else r)
       else s.process.rlimits ++ [⟨t, rHard, rSoft⟩]) := by
    by_cases hpres : s.process.rlimits.any (fun r => r.type == t) = true
    · rw [if_pos hpres]
      exact upsertRlimit_eq_map t rHard rSoft s.process.rlimits hpres (hdedup t)
    · rw [if_neg hpres]
      refine upsertRlimit_eq_append t rHard rSoft s.process.rlimits ?_
      intro r hr hre
      exact hpres (List.any_eq_true.mpr ⟨r, hr, beq_iff_eq.mpr hre⟩)
  refine ⟨?_, ?_, ?_, ?_⟩
  · rw [hadd, hup]
  · intro ty s2 hs2
    rw [hadd] at hs2
    have hs2' : s2 = { s with process := { s.process with
        rlimits := upsertRlimit t rHard rSoft s.process.rlimits } } :=
      (Option.some.inj hs2).symm
    subst hs2'
    show (upsertRlimit t rHard rSoft s.process.rlimits).countP (fun r => r.type == ty) ≤ 1
    by_cases hty : ty = t
    · subst hty
      have := countP_upsertRlimit_self ty rHard rSoft s.process.rlimits
      have := hdedup ty
      omega
    · rw [countP_upsertRlimit_ne t ty rHard rSoft hty s.process.rlimits]
      exact hdedup ty
  · intro habs
    obtain ⟨gs, ghs⟩ := g
    have hgs : gs = some s := hg
    subst hgs
    obtain ⟨v, pf, rt, pr, hn, mt, hks, an, lx⟩ := s
    obtain ⟨te, us, ar, en, cw, cp, rl, np, ap, se⟩ := pr
    have h1 : removeRlimit t rl = rl := removeRlimit_id t rl habs
    simp only [removeProcessRlimits, h1]
  · intro pre e post hsplit he hpre
    obtain ⟨gs, ghs⟩ := g
    have hgs : gs = some s := hg
    subst hgs
    obtain ⟨v, pf, rt, pr, hn, mt, hks, an, lx⟩ := s
    obtain ⟨te, us, ar, en, cw, cp, rl, np, ap, se⟩ := pr
    have hrl : rl = pre ++ e :: post := hsplit
    subst hrl
    simp only [removeProcessRlimits, removeRlimit_first t e post he pre hpre]

/-! ### Claim C8 -/

/-- C8: Save with the Seccomp export option set dereferences a nil pointer
(`g.spec.Linux.Seccomp`) — a Go runtime panic, not a returned typed
error — whenever the document's Linux subtree is absent, including when the
subtree was present but equal to its zero value and was therefore pruned to
nil by the step immediately preceding the export. -/
theorem save_seccomp_nil_deref (g : Generator) (s : Spec) (hg : g.spec = some s)
    (habs : s.linux = none ∨ s.linux = some emptyLinux) :
    save g true = SaveOutcome.nilDeref := by
  obtain ⟨gs, ghs⟩ := g
  have hgs : gs = some s := hg
  subst hgs
  have he : linuxMarshalsEmpty emptyLinux = true := by decide
  rcases habs with h | h
  · simp [save, h]
  · simp [save, h, he]

/-! ### Claim C9 -/

/-- C9: DropProcessCapability validates its argument before removing
anything: a token naming no registry capability is an error that changes
nothing, and with HostSpecific set a known capability above the host's
last supported index is an error as well — even when a matching entry is
present in the capability list. -/
theorem dropProcessCapability_validates (R : CapRegistry) (c : String) (g : Generator) :
    ((∀ q ∈ R.caps, toUpperGo q.1 ≠ toUpperGo c) →
      dropProcessCapability R c g = (g, some "Invalid value passed for adding capability")) ∧
    (∀ q, R.caps.find? (fun p => toUpperGo c == toUpperGo p.1) = some q →
      g.hostSpecific = true → q.2 > R.lastCap →
      dropProcessCapability R c g =
        (g, some ("CAP_" ++ toUpperGo c ++ " is not supported on the current host"))) := by
  constructor
  · intro hnone
    have hfind : R.caps.find? (fun p => toUpperGo c == toUpperGo p.1) = none :=
      List.find?_eq_none.mpr (fun q hq => by simpa using (hnone q hq).symm)
    have hcc : checkCap R c g.hostSpecific = some "Invalid value passed for adding capability" := by
      simp only [checkCap, hfind]
    simp only [dropProcessCapability, hcc]
  · intro q hq hhost hgt
    have hcc : checkCap R c g.hostSpecific =
        some ("CAP_" ++ toUpperGo c ++ " is not supported on the current host") := by
      simp only [checkCap, hq, hhost]
      simp [hgt]
    simp only [dropProcessCapability, hcc]

/-! ### Claim C10 -/

/-- C10: every clear and remove operation, invoked on a Generator whose
document pointer is nil, returns successfully without dereferencing or
allocating the document: the state is returned unchanged (still nil) and,
for the fallible operations, with a nil error. -/
theorem clear_remove_nil_noop (hs : Bool) (t key k : String) (hk : k ∈ Namespaces) :
    clearProcessCapabilities ⟨none, hs⟩ = ⟨none, hs⟩ ∧
    clearProcessRlimits ⟨none, hs⟩ = ⟨none, hs⟩ ∧
    removeProcessRlimits t ⟨none, hs⟩ = (⟨none, hs⟩, none) ∧
    clearProcessEnv ⟨none, hs⟩ = ⟨none, hs⟩ ∧
    clearProcessAdditionalGids ⟨none, hs⟩ = ⟨none, hs⟩ ∧
    clearAnnotations ⟨none, hs⟩ = ⟨none, hs⟩ ∧
    removeAnnotation key ⟨none, hs⟩ = ⟨none, hs⟩ ∧
    clearLinuxNamespaces ⟨none, hs⟩ = ⟨none, hs⟩ ∧
    removeLinuxNamespace k ⟨none, hs⟩ = (⟨none, hs⟩, none) ∧
    clearLinuxSysctl ⟨none, hs⟩ = ⟨none, hs⟩ ∧
    removeLinuxSysctl key ⟨none, hs⟩ = ⟨none, hs⟩ ∧
    clearLinuxUIDMappings ⟨none, hs⟩ = ⟨none, hs⟩ ∧
    clearLinuxGIDMappings ⟨none, hs⟩ = ⟨none, hs⟩ ∧
    clearPreStartHooks ⟨none, hs⟩ = ⟨none, hs⟩ ∧
    clearPostStartHooks ⟨none, hs⟩ = ⟨none, hs⟩ ∧
    clearPostStopHooks ⟨none, hs⟩ = ⟨none, hs⟩ := by
  refine ⟨rfl, rfl, rfl, rfl, rfl, rfl, rfl, rfl, ?_, rfl, rfl, rfl, rfl, rfl, rfl, rfl⟩
  simp [removeLinuxNamespace, mapStrToNamespace_of_mem "" hk]

/-! ### Witnesses -/

/-- Witness for C1 (amended): on the sample registry, adding "chown" to an
empty document normalizes and appends CAP_CHOWN. -/
theorem addProcessCapability_normalizes_witness :
    addProcessCapability sampleRegistry "chown" { spec := some emptySpec, hostSpecific := false } =
      ({ spec := some { emptySpec with process := { emptySpec.process with
          capabilities := ["CAP_CHOWN"] } }, hostSpecific := false }, none) := by
  have h := (addProcessCapability_normalizes sampleRegistry "chown"
    { spec := some emptySpec, hostSpecific := false } emptySpec rfl).1 (by decide)
  rw [h]
  decide

/-- Witness for C2: on the sample registry, privileged setup on a document
with a Linux subtree installs the full rendered capability list, clears
both confinement labels and the seccomp subtree, and the false flag is a
no-op. -/
theorem setupPrivileged_spec_witness :
    ((setupPrivileged sampleRegistry true { spec := some { emptySpec with linux := some emptyLinux }, hostSpecific := false }).spec.map
        (fun s => (s.process.capabilities, s.process.selinuxLabel, s.process.apparmorProfile, s.linux.map (fun l => l.seccomp)))) =
      some (sampleRegistry.caps.map (fun q => "CAP_" ++ toUpperGo q.1), "", "", some none) ∧
    setupPrivileged sampleRegistry false { spec := some { emptySpec with linux := some emptyLinux }, hostSpecific := false } =
      { spec := some { emptySpec with linux := some emptyLinux }, hostSpecific := false } := by
  have h := setupPrivileged_spec sampleRegistry
    { spec := some { emptySpec with linux := some emptyLinux }, hostSpecific := false }
    { emptySpec with linux := some emptyLinux } emptyLinux rfl rfl
  refine ⟨?_, h.2⟩
  rw [h.1]
  decide

/-- Witness for C3: an unrecognized kind is rejected with the document
unchanged, and removing an absent recognized kind succeeds unchanged. -/
theorem namespace_kind_validation_witness :
    removeLinuxNamespace "bogus" { spec := some emptySpec, hostSpecific := false } =
      ({ spec := some emptySpec, hostSpecific := false }, some "Should not reach here!") ∧
    removeLinuxNamespace "pid" { spec := some emptySpec, hostSpecific := false } =
      ({ spec := some emptySpec, hostSpecific := false }, none) := by
  refine ⟨((namespace_kind_validation "bogus" "" _).1 (by decide)).2, ?_⟩
  exact ((namespace_kind_validation "pid" "" _).2 (by decide)).2.2.2.1 emptySpec rfl rfl

/-- Witness for C4: upserting a pid namespace into an empty namespace set
appends the entry. -/
theorem addOrReplaceLinuxNamespace_upsert_witness :
    addOrReplaceLinuxNamespace "pid" "/a" { spec := some { emptySpec with linux := some emptyLinux }, hostSpecific := false } =
      ({ spec := some { emptySpec with linux := some { emptyLinux with
          namespaces := [⟨"pid", "/a"⟩] } }, hostSpecific := false }, none) := by
  have h := (addOrReplaceLinuxNamespace_upsert "pid" "/a" "/b"
    { spec := some { emptySpec with linux := some emptyLinux }, hostSpecific := false }
    { emptySpec with linux := some emptyLinux } emptyLinux (by decide) rfl rfl
    (fun t => by simp [emptyLinux])).1
  rw [h]
  decide

/-- Witness for C5: a bind mount with no options gets ["rw", "bind"]. -/
theorem addBindMount_appends_witness :
    addBindMount "/src" "/dst" [] { spec := some emptySpec, hostSpecific := false } =
      { spec := some { emptySpec with mounts :=
          [⟨"/dst", "bind", "/src", ["rw", "bind"]⟩] }, hostSpecific := false } := by
  rw [addBindMount_appends "/src" "/dst" [] _ emptySpec rfl]
  decide

/-- Witness for C6: "no" appends nothing, "ro" appends the fixed cgroup
mount, "bogus" is a validation error with the document unchanged. -/
theorem addCgroupsMount_modes_witness :
    addCgroupsMount "no" { spec := some emptySpec, hostSpecific := false } =
      ({ spec := some emptySpec, hostSpecific := false }, none) ∧
    addCgroupsMount "ro" { spec := some emptySpec, hostSpecific := false } =
      ({ spec := some { emptySpec with mounts := [⟨"/sys/fs/cgroup", "cgroup", "cgroup", ["nosuid", "noexec", "nodev", "relatime", "ro"]⟩] }, hostSpecific := false }, none) ∧
    addCgroupsMount "bogus" { spec := some emptySpec, hostSpecific := false } =
      ({ spec := some emptySpec, hostSpecific := false },
       some "--mount-cgroups should be one of (ro,rw,no)") := by
  refine ⟨(addCgroupsMount_modes "no" { spec := some emptySpec, hostSpecific := false } emptySpec rfl).1 rfl, ?_,
    (addCgroupsMount_modes "bogus" { spec := some emptySpec, hostSpecific := false } emptySpec rfl).2.2 (by decide) (by decide) (by decide)⟩
  have h2 := (addCgroupsMount_modes "ro" { spec := some emptySpec, hostSpecific := false } emptySpec rfl).2.1 (Or.inl rfl)
  rw [h2]
  decide

/-- Witness for C7: overwriting the sole RLIMIT_NOFILE entry updates it in
place; removing it empties the collection with a nil error. -/
theorem processRlimits_upsert_remove_witness :
    addProcessRlimits "RLIMIT_NOFILE" 2048 512
        { spec := some { emptySpec with process := { emptySpec.process with
            rlimits := [⟨"RLIMIT_NOFILE", 1024, 1024⟩] } }, hostSpecific := false } =
      { spec := some { emptySpec with process := { emptySpec.process with
          rlimits := [⟨"RLIMIT_NOFILE", 2048, 512⟩] } }, hostSpecific := false } ∧
    removeProcessRlimits "RLIMIT_NOFILE"
        { spec := some { emptySpec with process := { emptySpec.process with
            rlimits := [⟨"RLIMIT_NOFILE", 1024, 1024⟩] } }, hostSpecific := false } =
      ({ spec := some { emptySpec with process := { emptySpec.process with
          rlimits := [] } }, hostSpecific := false }, none) := by
  have h := processRlimits_upsert_remove "RLIMIT_NOFILE" 2048 512
    { spec := some { emptySpec with process := { emptySpec.process with
        rlimits := [⟨"RLIMIT_NOFILE", 1024, 1024⟩] } }, hostSpecific := false }
    { emptySpec with process := { emptySpec.process with
        rlimits := [⟨"RLIMIT_NOFILE", 1024, 1024⟩] } } rfl
    (fun ty => by
      show List.countP (fun r : LinuxRlimit => r.type == ty) [⟨"RLIMIT_NOFILE", 1024, 1024⟩] ≤ 1
      rw [List.countP_singleton]
      split <;> decide)
  constructor
  · rw [h.1]
    decide
  · have h4 := h.2.2.2 [] ⟨"RLIMIT_NOFILE", 1024, 1024⟩ [] rfl rfl
      (fun r hr => by simp at hr)
    rw [h4]
    decide

/-- Witness for C8: seccomp-only export panics both when the Linux subtree
is absent and when it is the zero value about to be pruned. -/
theorem save_seccomp_nil_deref_witness :
    save { spec := some emptySpec, hostSpecific := false } true = SaveOutcome.nilDeref ∧
    save { spec := some { emptySpec with linux := some emptyLinux }, hostSpecific := false } true =
      SaveOutcome.nilDeref :=
  ⟨save_seccomp_nil_deref _ emptySpec rfl (Or.inl rfl),
   save_seccomp_nil_deref _ { emptySpec with linux := some emptyLinux } rfl (Or.inr rfl)⟩

/-- Witness for C9: an unknown token is rejected, and with HostSpecific set
a host-unsupported capability is rejected even though a matching entry is
present in the list. -/
theorem dropProcessCapability_validates_witness :
    dropProcessCapability sampleRegistry "bogus" { spec := some emptySpec, hostSpecific := false } =
      ({ spec := some emptySpec, hostSpecific := false },
       some "Invalid value passed for adding capability") ∧
    dropProcessCapability sampleRegistry "audit_read"
        { spec := some { emptySpec with process := { emptySpec.process with
            capabilities := ["CAP_AUDIT_READ"] } }, hostSpecific := true } =
      ({ spec := some { emptySpec with process := { emptySpec.process with
          capabilities := ["CAP_AUDIT_READ"] } }, hostSpecific := true },
       some "CAP_AUDIT_READ is not supported on the current host") := by
  constructor
  · exact (dropProcessCapability_validates sampleRegistry "bogus" _).1 (by decide)
  · have h := (dropProcessCapability_validates sampleRegistry "audit_read"
      { spec := some { emptySpec with process := { emptySpec.process with
          capabilities := ["CAP_AUDIT_READ"] } }, hostSpecific := true }).2
      ("audit_read", 37) (by decide) rfl (by decide)
    rw [h]
    decide

/-- Witness for C10: clear and remove operations on a nil document leave it
nil and succeed. -/
theorem clear_remove_nil_noop_witness :
    removeLinuxNamespace "pid" ⟨none, false⟩ = (⟨none, false⟩, none) ∧
    clearAnnotations ⟨none, false⟩ = ⟨none, false⟩ ∧
    removeProcessRlimits "RLIMIT_CORE" ⟨none, false⟩ = (⟨none, false⟩, none) := by
  have h := clear_remove_nil_noop false "RLIMIT_CORE" "key" "pid" (by decide)
  exact ⟨h.2.2.2.2.2.2.2.2.1, h.2.2.2.2.2.1, h.2.2.1⟩

end Generate
